import Mathlib

/-!
# Streaming prefix-sum pipeline: a shallow embedding

This file embeds the kernels of `src/main.cpp` (a streaming prefix-sum
pipeline written for an FPGA dataflow runtime) and proves functional and
scheduling properties about them.

The source declares `typedef uint64_t Element` and a `Flit` holding
`STRM_WIDTH` elements.  Elements are modelled as `Nat` reduced modulo
`2 ^ 64` at every addition, matching unsigned 64-bit wraparound; a flit is
modelled as the list of its lanes (the lane count `STRM_WIDTH` is a
parameter of the adapters, not of the kernels themselves, which scan
whatever flit arrives).

Three kernels appear in the source:
  * `prefixSumSimple` (main.cpp:86-103): architectural state `prefixSum`,
    per tick scans one flit, emitting the running sum at each lane;
  * `prefixSumA` (main.cpp:120-136): stateless, per tick sums the lanes of
    one flit and forwards both the flit and the partial sum;
  * `prefixSumB` (main.cpp:138-162): architectural state `sumSoFar`, per
    tick consumes a flit and its partial sum, emits the same scan as
    `prefixSumSimple` seeded with `sumSoFar`, then adds the partial sum
    into `sumSoFar`.

A second part of the file models the four concurrent units of the program
(`Input2Pipe` source adapter, the two stages, `Pipe2Output` sink adapter)
connected by the bounded FIFO pipes `InPipe`, `DataPipe`, `SumPipe`,
`OutPipe`, as a nondeterministically scheduled transition system, and
proves the ordering, determinism and completion properties the design
relies on.
-/

namespace MiniStreamPub

/-- Modulus of the `Element` type: `typedef uint64_t Element` (main.cpp:34). -/
def M : Nat := 2 ^ 64

/-- A flit payload: `Element element[STRM_WIDTH]` (main.cpp:39-41), modelled
as the list of its lanes in index order. -/
abbrev Flit := List Nat

/-- One wrapping 64-bit addition, the semantics of `+=` on `Element`. -/
def add64 (a b : Nat) : Nat := (a + b) % M

/-- The unrolled lane loop shared by `prefixSumSimple` (main.cpp:96-99) and
`prefixSumB` (main.cpp:154-157): seeded with the architectural state, it
produces the output flit lane by lane together with the final running sum:
`prefixSum += iflit.element[i]; oflit.element[i] = prefixSum`. -/
def flitLoop (s : Nat) : Flit → Flit × Nat
  | [] => ([], s)
  | e :: es =>
    let r := flitLoop (add64 s e) es
    (add64 s e :: r.1, r.2)

/-- The lane loop of `prefixSumA` (main.cpp:129-131): `partialSum +=
iflit.element[i]` starting from `Element partialSum = 0`. -/
def flitSum (f : Flit) : Nat := f.foldl add64 0

/-- Per-tick body of `prefixSumA` (main.cpp:124-134): consumes one flit,
produces the pair (value written to the sum pipe, flit forwarded unchanged
to the data pipe). -/
def prefixSumA_tick (f : Flit) : Nat × Flit := (flitSum f, f)

/-- Per-tick body of `prefixSumB` (main.cpp:145-160): from the state
`sumSoFar` and the two reads (flit, partial sum), produce the output flit
and the next `sumSoFar`. -/
def prefixSumB_tick (sumSoFar : Nat) (f : Flit) (partialSum : Nat) :
    Flit × Nat :=
  ((flitLoop sumSoFar f).1, add64 sumSoFar partialSum)

/-- Per-tick body of `prefixSumSimple` (main.cpp:91-101): from the state
`prefixSum` and one input flit, produce the output flit and the next
state. -/
def prefixSumSimple_tick (prefixSum : Nat) (f : Flit) : Flit × Nat :=
  flitLoop prefixSum f

/-- The single-stage kernel `prefixSumSimple` unrolled over a finite input
flit sequence, threading the architectural state `prefixSum`. -/
def prefixSumSimpleRun (s : Nat) : List Flit → List Flit
  | [] => []
  | f :: fs =>
    (prefixSumSimple_tick s f).1 :: prefixSumSimpleRun (prefixSumSimple_tick s f).2 fs

/-- Output of `prefixSumSimple` on a finite input, from the initial state
`Element prefixSum = 0` (main.cpp:87). -/
def prefixSumSimple (fs : List Flit) : List Flit := prefixSumSimpleRun 0 fs

/-- Stage B unrolled over a finite sequence of (partialSum, flit) pairs,
threading the architectural state `sumSoFar`. -/
def prefixSumBRun (s : Nat) : List (Nat × Flit) → List Flit
  | [] => []
  | p :: ps =>
    (prefixSumB_tick s p.2 p.1).1 :: prefixSumBRun (prefixSumB_tick s p.2 p.1).2 ps

/-- The two-stage pipeline as the composition of Stage A and Stage B along
the (order-preserving) sum and data channels: Stage A maps each input flit
to its (partialSum, flit) pair, Stage B folds over the paired stream from
`Element sumSoFar = 0` (main.cpp:140). -/
def twoStage (fs : List Flit) : List Flit :=
  prefixSumBRun 0 (fs.map prefixSumA_tick)

/-- The element-level running scan: what the flattened output stream looks
like, one wrapping addition per element. -/
def scanAdd (s : Nat) : List Nat → List Nat
  | [] => []
  | e :: l => add64 s e :: scanAdd (add64 s e) l

/-! ## Basic arithmetic lemmas -/

theorem add64_mod_left (a b : Nat) : add64 (a % M) b = add64 a b := by
  simp [add64, Nat.mod_add_mod]

theorem foldl_add64_eq (f : Flit) :
    ∀ s : Nat, f.foldl add64 (s % M) = (s + f.sum) % M := by
  induction f with
  | nil => intro s; simp
  | cons e es ih =>
    intro s
    rw [List.foldl_cons, add64_mod_left]
    show es.foldl add64 ((s + e) % M) = _
    rw [ih (s + e)]
    simp [List.sum_cons, Nat.add_assoc]

/-- `flitSum` computes the flit's lane sum modulo `2 ^ 64`. -/
theorem flitSum_eq (f : Flit) : flitSum f = f.sum % M := by
  have h := foldl_add64_eq f 0
  simpa [flitSum] using h

/-- The final running sum of the lane loop is the fold of wrapping
additions over the flit. -/
theorem flitLoop_snd_foldl (f : Flit) :
    ∀ s : Nat, (flitLoop s f).2 = f.foldl add64 s := by
  induction f with
  | nil => intro s; rfl
  | cons e es ih => intro s; simp [flitLoop, ih, List.foldl_cons]

/-- On a reduced seed, the lane loop's final running sum is the seed plus
the lane sum, modulo `2 ^ 64`. -/
theorem flitLoop_snd (f : Flit) (s : Nat) :
    (flitLoop (s % M) f).2 = (s + f.sum) % M := by
  rw [flitLoop_snd_foldl, foldl_add64_eq]

/-- The output flit of the lane loop is the element-level scan of the
input flit. -/
theorem flitLoop_fst (f : Flit) : ∀ s : Nat, (flitLoop s f).1 = scanAdd s f := by
  induction f with
  | nil => intro s; rfl
  | cons e es ih => intro s; simp [flitLoop, scanAdd, ih]

theorem scanAdd_append (l₁ l₂ : List Nat) :
    ∀ s : Nat, scanAdd s (l₁ ++ l₂) = scanAdd s l₁ ++ scanAdd (l₁.foldl add64 s) l₂ := by
  induction l₁ with
  | nil => intro s; rfl
  | cons e l ih => intro s; simp [scanAdd, ih, List.foldl_cons]

theorem scanAdd_length (l : List Nat) : ∀ s : Nat, (scanAdd s l).length = l.length := by
  induction l with
  | nil => intro s; rfl
  | cons e l ih => intro s; simp [scanAdd, ih]

/-! ## Equivalence of the two-stage decomposition with the single stage -/

/-- From any reduced seed, Stage B run on Stage A's stream agrees with the
single-stage run: per tick both emit `flitLoop` of the current flit, and
both next states equal seed plus lane sum modulo `2 ^ 64`. -/
theorem prefixSumBRun_map_eq (fs : List Flit) :
    ∀ t : Nat, prefixSumBRun (t % M) (fs.map prefixSumA_tick) =
      prefixSumSimpleRun (t % M) fs := by
  induction fs with
  | nil => intro t; rfl
  | cons f fs ih =>
    intro t
    show (prefixSumB_tick (t % M) f (flitSum f)).1 ::
        prefixSumBRun (prefixSumB_tick (t % M) f (flitSum f)).2 (fs.map prefixSumA_tick) =
      (flitLoop (t % M) f).1 :: prefixSumSimpleRun (flitLoop (t % M) f).2 fs
    have hB : (prefixSumB_tick (t % M) f (flitSum f)).2 = (t + f.sum) % M := by
      show add64 (t % M) (flitSum f) = _
      rw [flitSum_eq, add64, Nat.mod_add_mod, Nat.add_mod_mod]
    have hS : (flitLoop (t % M) f).2 = (t + f.sum) % M := flitLoop_snd f t
    rw [hB, hS, prefixSumB_tick, ih (t + f.sum)]

/-! ## Flattened output stream -/

/-- The flattened output of the single-stage run is the element-level scan
of the flattened input. -/
theorem flatten_prefixSumSimpleRun (fs : List Flit) :
    ∀ s : Nat, (prefixSumSimpleRun s fs).flatten = scanAdd s fs.flatten := by
  induction fs with
  | nil => intro s; rfl
  | cons f fs ih =>
    intro s
    show (flitLoop s f).1 ++ (prefixSumSimpleRun (flitLoop s f).2 fs).flatten = _
    rw [ih, flitLoop_fst, flitLoop_snd_foldl, List.flatten_cons, scanAdd_append]

/-- Position `i` of the scan from a reduced seed is the seed plus the sum
of the first `i + 1` elements, modulo `2 ^ 64`. -/
theorem scanAdd_get (l : List Nat) :
    ∀ s i, i < l.length →
      (scanAdd (s % M) l)[i]? = some ((s + (l.take (i + 1)).sum) % M) := by
  induction l with
  | nil => intro s i h; simp at h
  | cons e l ih =>
    intro s i h
    cases i with
    | zero =>
      show (add64 (s % M) e :: scanAdd (add64 (s % M) e) l)[0]? = _
      rw [add64_mod_left]
      simp [add64]
    | succ i =>
      show (add64 (s % M) e :: scanAdd (add64 (s % M) e) l)[i + 1]? = _
      rw [add64_mod_left]
      have : add64 s e = (s + e) % M := rfl
      rw [this, List.getElem?_cons_succ, ih (s + e) i (by simpa using h)]
      simp [List.take_cons, Nat.add_assoc]

/-! ## The source adapter's packing of elements into flits -/

/-- Recursion worker for `chunks`, structural on a fuel argument that
`chunks` instantiates with the list length (each round removes at least
one element, so the fuel never runs out). -/
def chunksAux : Nat → Nat → List Nat → List (List Nat)
  | _, _, [] => []
  | 0, _, e :: l => [e :: l]
  | n + 1, W, e :: l => (e :: l.take (W - 1)) :: chunksAux n W (l.drop (W - 1))

/-- The host loop (main.cpp:217-218) packs the element sequence
`STRM_WIDTH` at a time into flits, in index order; `Input2Pipe`
(main.cpp:274-280) then feeds one flit per tick.  `chunks W` performs that
packing for a sequence whose length is a multiple of `W`. -/
def chunks (W : Nat) (l : List Nat) : List (List Nat) := chunksAux l.length W l

theorem chunksAux_flatten (W : Nat) :
    ∀ n (l : List Nat), l.length ≤ n → (chunksAux n W l).flatten = l := by
  intro n
  induction n with
  | zero =>
    intro l h
    cases l with
    | nil => rfl
    | cons e l => simp at h
  | succ n ih =>
    intro l h
    cases l with
    | nil => rfl
    | cons e l =>
      rw [chunksAux, List.flatten_cons,
        ih (l.drop (W - 1)) (by simp only [List.length_drop]; simp at h; omega)]
      simp [List.take_append_drop]

/-- Packing and flattening round-trip: `chunks W` loses no element. -/
theorem chunks_flatten (W : Nat) (l : List Nat) : (chunks W l).flatten = l :=
  chunksAux_flatten W l.length l le_rfl

/-! ## The concurrent pipeline

The program runs four units concurrently (main.cpp:238-281): the source
adapter `Input2Pipe`, the two stages `PrefixSumA` and `PrefixSumB`, and the
sink adapter `Pipe2Output`, joined by the bounded FIFO pipes `InPipe`,
`DataPipe`, `SumPipe` and `OutPipe`, each of depth `DEFAULT_PIPE_DEPTH = 4`
(main.cpp:53-64).  A pipe write blocks while the pipe is full, a read
blocks while it is empty.  We model the system as a transition relation on
a state holding the four queues, Stage B's architectural state, and the
source's and sink's positions; a scheduler picks which unit fires next,
and a unit can fire only when none of its channel operations would block
(each tick is one atomic transition, per the kernel execution contract). -/

/-- Global state of the concurrent pipeline. -/
structure PipeState where
  /-- Flits the source adapter has not yet written to `InPipe`. -/
  pending : List Flit
  /-- Contents of `InPipe`, oldest first. -/
  inQ : List Flit
  /-- Contents of `DataPipe`, oldest first. -/
  dataQ : List Flit
  /-- Contents of `SumPipe`, oldest first. -/
  sumQ : List Nat
  /-- Contents of `OutPipe`, oldest first. -/
  outQ : List Flit
  /-- Stage B's architectural state `sumSoFar`. -/
  sumSoFar : Nat
  /-- Flits the sink adapter has stored, oldest first. -/
  collected : List Flit
deriving DecidableEq

/-- The four concurrently running units. -/
inductive PipeUnit where
  /-- `Input2Pipe` (main.cpp:274-280). -/
  | source
  /-- `PrefixSumA` (main.cpp:264-267). -/
  | stageA
  /-- `PrefixSumB` (main.cpp:259-262). -/
  | stageB
  /-- `Pipe2Output` (main.cpp:240-246). -/
  | sink
deriving DecidableEq

/-- One tick of one unit, with pipes of depth `d`: `none` when the unit is
blocked on a channel operation (empty read or full write), otherwise the
updated global state.  Each unit's body is the per-tick code of the
corresponding source function. -/
def step (d : Nat) (u : PipeUnit) (s : PipeState) : Option PipeState :=
  match u with
  | .source =>
    match s.pending with
    | [] => none
    | f :: rest =>
      if s.inQ.length < d then
        some { s with pending := rest, inQ := s.inQ ++ [f] }
      else none
  | .stageA =>
    match s.inQ with
    | [] => none
    | f :: rest =>
      if s.sumQ.length < d ∧ s.dataQ.length < d then
        some { s with
          inQ := rest
          sumQ := s.sumQ ++ [(prefixSumA_tick f).1]
          dataQ := s.dataQ ++ [(prefixSumA_tick f).2] }
      else none
  | .stageB =>
    match s.dataQ, s.sumQ with
    | f :: dq, p :: sq =>
      if s.outQ.length < d then
        some { s with
          dataQ := dq
          sumQ := sq
          sumSoFar := (prefixSumB_tick s.sumSoFar f p).2
          outQ := s.outQ ++ [(prefixSumB_tick s.sumSoFar f p).1] }
      else none
    | _, _ => none
  | .sink =>
    match s.outQ with
    | [] => none
    | f :: rest =>
      some { s with outQ := rest, collected := s.collected ++ [f] }

/-- Initial state: the source adapter holds the whole input, every pipe is
empty, `sumSoFar = 0`, nothing collected. -/
def init (input : List Flit) : PipeState :=
  ⟨input, [], [], [], [], 0, []⟩

/-- A state where every unit is blocked: no unit can fire. -/
def Terminal (d : Nat) (s : PipeState) : Prop :=
  step d .source s = none ∧ step d .stageA s = none ∧
    step d .stageB s = none ∧ step d .sink s = none

instance (d : Nat) (s : PipeState) : Decidable (Terminal d s) := by
  unfold Terminal; infer_instance

/-- Execute a schedule: each entry names the unit that fires next; the
whole run fails if a scheduled unit is blocked at its turn. -/
def run (d : Nat) : PipeState → List PipeUnit → Option PipeState
  | s, [] => some s
  | s, u :: us =>
    match step d u s with
    | none => none
    | some s' => run d s' us

/-- State after the single-stage kernel has consumed a flit sequence. -/
def simpleState (s : Nat) (fs : List Flit) : Nat :=
  fs.foldl (fun t f => (flitLoop t f).2) s

theorem prefixSumSimpleRun_append (fs₁ fs₂ : List Flit) :
    ∀ s, prefixSumSimpleRun s (fs₁ ++ fs₂) =
      prefixSumSimpleRun s fs₁ ++ prefixSumSimpleRun (simpleState s fs₁) fs₂ := by
  induction fs₁ with
  | nil => intro s; rfl
  | cons f fs ih =>
    intro s
    simp only [List.cons_append, prefixSumSimpleRun, ih, simpleState, List.foldl_cons,
      List.cons_append, prefixSumSimple_tick, List.append_eq]

theorem prefixSumSimpleRun_length (fs : List Flit) :
    ∀ s, (prefixSumSimpleRun s fs).length = fs.length := by
  induction fs with
  | nil => intro s; rfl
  | cons f fs ih => intro s; simp [prefixSumSimpleRun, ih]

theorem simpleState_mod (fs : List Flit) :
    ∀ t : Nat, simpleState (t % M) fs = (t + fs.flatten.sum) % M := by
  induction fs with
  | nil => intro t; simp [simpleState]
  | cons f fs ih =>
    intro t
    show simpleState (flitLoop (t % M) f).2 fs = _
    rw [flitLoop_snd, ih (t + f.sum)]
    simp [Nat.add_assoc]

theorem simpleState_zero (fs : List Flit) : simpleState 0 fs = fs.flatten.sum % M := by
  have h := simpleState_mod fs 0
  simpa using h

/-- The run invariant: the input splits into the flits fully consumed by
Stage B (`bs`), those sitting in the data/sum pipes (`ds`), those in
`InPipe` (`is`), and those still pending at the source (`ps`); the sum
pipe carries exactly the partial sums of the data-pipe flits, in order;
Stage B's state is the element sum of the consumed flits; and the output
flits emitted so far (collected plus in flight in `OutPipe`) are the
single-stage kernel's output on the consumed flits. -/
def Inv (input : List Flit) (s : PipeState) : Prop :=
  ∃ bs ds is ps : List Flit,
    input = bs ++ ds ++ is ++ ps ∧
    s.pending = ps ∧
    s.inQ = is ∧
    s.dataQ = ds ∧
    s.sumQ = ds.map flitSum ∧
    s.sumSoFar = bs.flatten.sum % M ∧
    s.collected ++ s.outQ = prefixSumSimpleRun 0 bs

theorem init_inv (input : List Flit) : Inv input (init input) :=
  ⟨[], [], [], input, by simp, rfl, rfl, rfl, rfl, rfl, rfl⟩

/-- Every enabled tick of every unit preserves the run invariant. -/
theorem step_inv (d : Nat) (input : List Flit) (u : PipeUnit) (s s' : PipeState)
    (hs : Inv input s) (h : step d u s = some s') : Inv input s' := by
  obtain ⟨bs, ds, is, ps, hsplit, hp, hi, hd, hq, hsum, hout⟩ := hs
  cases u with
  | source =>
    rcases hps : s.pending with _ | ⟨f, rest⟩ <;> simp [step, hps] at h
    obtain ⟨hlt, hs'⟩ := h
    have hps' : ps = f :: rest := by rw [← hp, hps]
    refine ⟨bs, ds, is ++ [f], rest, ?_, ?_, ?_, ?_, ?_, ?_, ?_⟩ <;>
      simp [← hs', hp, hi, hd, hq, hsum, hout, hsplit, hps']
  | stageA =>
    rcases his : s.inQ with _ | ⟨f, rest⟩ <;> simp [step, his] at h
    obtain ⟨⟨hlt₁, hlt₂⟩, hs'⟩ := h
    have his' : is = f :: rest := by rw [← hi, his]
    refine ⟨bs, ds ++ [f], rest, ps, ?_, ?_, ?_, ?_, ?_, ?_, ?_⟩ <;>
      simp [← hs', hp, hi, hd, hq, hsum, hout, hsplit, his', prefixSumA_tick]
  | stageB =>
    rcases hds : s.dataQ with _ | ⟨f, dq⟩ <;>
      rcases hsq : s.sumQ with _ | ⟨p, sq⟩ <;> simp [step, hds, hsq] at h
    obtain ⟨hlt, hs'⟩ := h
    have hds' : ds = f :: dq := by rw [← hd, hds]
    have hpq : p = flitSum f ∧ sq = dq.map flitSum := by
      have : s.sumQ = flitSum f :: dq.map flitSum := by rw [hq, hds']; rfl
      rw [hsq] at this
      exact ⟨(List.cons.injEq _ _ _ _ ▸ this).1, (List.cons.injEq _ _ _ _ ▸ this).2⟩
    refine ⟨bs ++ [f], dq, is, ps, ?_, ?_, ?_, ?_, ?_, ?_, ?_⟩
    · rw [hsplit, hds']; simp
    · simp [← hs', hp]
    · simp [← hs', hi]
    · simp [← hs']
    · simp [← hs', hpq.2]
    · simp only [← hs']
      show (prefixSumB_tick s.sumSoFar f p).2 = _
      rw [prefixSumB_tick, hsum, hpq.1, flitSum_eq, add64_mod_left, add64,
        Nat.add_mod_mod]
      simp [List.sum_append]
    · simp only [← hs']
      show s.collected ++ (s.outQ ++ [(prefixSumB_tick s.sumSoFar f p).1]) = _
      rw [prefixSumSimpleRun_append, ← List.append_assoc, hout]
      show _ = _ ++ ((flitLoop (simpleState 0 bs) f).1 :: prefixSumSimpleRun _ [])
      rw [prefixSumSimpleRun]
      simp [prefixSumB_tick, simpleState_zero, hsum]
  | sink =>
    rcases hoq : s.outQ with _ | ⟨f, rest⟩ <;> simp [step, hoq] at h
    refine ⟨bs, ds, is, ps, hsplit, ?_, ?_, ?_, ?_, ?_, ?_⟩
    all_goals simp [← h, hp, hi, hd, hq, hsum, ← hout, hoq]

/-- The invariant holds along every run from the initial state. -/
theorem run_inv (d : Nat) (input : List Flit) :
    ∀ (σ : List PipeUnit) (s s' : PipeState), Inv input s →
      run d s σ = some s' → Inv input s' := by
  intro σ
  induction σ with
  | nil => intro s s' hs h; rw [run] at h; cases h; exact hs
  | cons u us ih =>
    intro s s' hs h
    rw [run] at h
    rcases hst : step d u s with _ | s₁ <;> rw [hst] at h
    · cases h
    · exact ih s₁ s' (step_inv d input u s s₁ hs hst) h

/-! ## Liveness: progress, bounded completion -/

/-- Number of remaining unit firings: a flit still pending at the source
needs four (source, Stage A, Stage B, sink), one already in `InPipe`
needs three, one in the data/sum pipes needs two, an output flit still in
`OutPipe` needs one. -/
def weight (s : PipeState) : Nat :=
  4 * s.pending.length + 3 * s.inQ.length + 2 * s.dataQ.length + s.outQ.length

/-- Every enabled tick moves exactly one flit one hop, so the weight falls
by exactly one. -/
theorem step_weight (d : Nat) (u : PipeUnit) (s s' : PipeState)
    (h : step d u s = some s') : weight s' + 1 = weight s := by
  cases u with
  | source =>
    rcases hps : s.pending with _ | ⟨f, rest⟩ <;> simp [step, hps] at h
    obtain ⟨hlt, hs'⟩ := h
    simp [weight, ← hs', hps]
    ring
  | stageA =>
    rcases his : s.inQ with _ | ⟨f, rest⟩ <;> simp [step, his] at h
    obtain ⟨hlt, hs'⟩ := h
    simp [weight, ← hs', his]
    ring
  | stageB =>
    rcases hds : s.dataQ with _ | ⟨f, dq⟩ <;>
      rcases hsq : s.sumQ with _ | ⟨p, sq⟩ <;> simp [step, hds, hsq] at h
    obtain ⟨hlt, hs'⟩ := h
    simp [weight, ← hs', hds]
    ring
  | sink =>
    rcases hoq : s.outQ with _ | ⟨f, rest⟩ <;> simp [step, hoq] at h
    simp [weight, ← h, hoq]
    ring

/-- A successful schedule has exactly as many entries as the weight it
burns off. -/
theorem run_weight (d : Nat) :
    ∀ (σ : List PipeUnit) (s s' : PipeState), run d s σ = some s' →
      σ.length + weight s' = weight s := by
  intro σ
  induction σ with
  | nil => intro s s' h; rw [run] at h; cases h; simp
  | cons u us ih =>
    intro s s' h
    rw [run] at h
    rcases hst : step d u s with _ | s₁ <;> rw [hst] at h
    · cases h
    · have h₁ := ih s₁ s' h
      have h₂ := step_weight d u s s₁ hst
      simp only [List.length_cons]
      omega

/-- In a non-terminal state some unit can fire. -/
theorem not_terminal_step (d : Nat) (s : PipeState) (h : ¬ Terminal d s) :
    ∃ u s', step d u s = some s' := by
  by_contra hc
  push_neg at hc
  refine h ⟨?_, ?_, ?_, ?_⟩ <;>
    { rcases hst : step d _ s with _ | s₁
      · rfl
      · exact absurd hst (hc _ s₁) }

/-- From any state, some schedule of length at most the state's weight
drives the pipeline to a terminal state. -/
theorem exists_terminal_run (d : Nat) :
    ∀ (n : Nat) (s : PipeState), weight s ≤ n →
      ∃ σ s', run d s σ = some s' ∧ σ.length ≤ n ∧ Terminal d s' := by
  intro n
  induction n with
  | zero =>
    intro s h
    refine ⟨[], s, rfl, by simp, ?_⟩
    by_contra ht
    obtain ⟨u, s', hst⟩ := not_terminal_step d s ht
    have := step_weight d u s s' hst
    omega
  | succ n ih =>
    intro s h
    by_cases ht : Terminal d s
    · exact ⟨[], s, rfl, by simp, ht⟩
    · obtain ⟨u, s₁, hst⟩ := not_terminal_step d s ht
      have hw := step_weight d u s s₁ hst
      obtain ⟨σ, s', hrun, hlen, hterm⟩ := ih s₁ (by omega)
      exact ⟨u :: σ, s', by rw [run, hst]; exact hrun, by simp; omega, hterm⟩

/-- With any positive pipe depth, a terminal state satisfying the run
invariant is fully drained: nothing pending, every pipe empty, and the
sink holds the single-stage kernel's entire output. -/
theorem terminal_drained (d : Nat) (input : List Flit) (s : PipeState)
    (hd1 : 1 ≤ d) (hs : Inv input s) (ht : Terminal d s) :
    s.pending = [] ∧ s.inQ = [] ∧ s.dataQ = [] ∧ s.sumQ = [] ∧ s.outQ = [] ∧
      s.collected = prefixSumSimple input := by
  obtain ⟨hsrc, hA, hB, hsink⟩ := ht
  obtain ⟨bs, ds, is, ps, hsplit, hp, hi, hdq, hq, hsum, hout⟩ := hs
  have hoq : s.outQ = [] := by
    rcases hoq : s.outQ with _ | ⟨f, rest⟩
    · rfl
    · rw [step, hoq] at hsink; cases hsink
  have hds : s.dataQ = [] := by
    rcases hds : s.dataQ with _ | ⟨f, dq⟩
    · rfl
    · have hq' : s.sumQ = flitSum f :: dq.map flitSum := by
        rw [hq, ← hdq, hds]; rfl
      rw [step, hds, hq'] at hB
      simp [hoq] at hB
      omega
  have hiq : s.inQ = [] := by
    rcases hiq : s.inQ with _ | ⟨f, rest⟩
    · rfl
    · rw [step, hiq] at hA
      have hq0 : s.sumQ = [] := by rw [hq, ← hdq, hds]; rfl
      simp [hds, hq0] at hA
      omega
  have hpq : s.pending = [] := by
    rcases hpq : s.pending with _ | ⟨f, rest⟩
    · rfl
    · rw [step, hpq] at hsrc
      simp [hiq] at hsrc
      omega
  have hbs : input = bs := by
    rw [hsplit, ← hdq, hds, ← hi, hiq, ← hp, hpq]
    simp
  refine ⟨hpq, hiq, hds, by rw [hq, ← hdq, hds]; rfl, hoq, ?_⟩
  show s.collected = prefixSumSimpleRun 0 input
  rw [hbs, ← hout, hoq]
  simp

/-- Under the invariant, the head of the data pipe is the flit of the
original input tick numbered by Stage B's firing count (collected plus in
flight), and the head of the sum pipe is that same flit's partial sum:
channel FIFO order pairs Stage B's two reads. -/
theorem inv_pairing (input : List Flit) (s : PipeState) (hs : Inv input s)
    (f : Flit) (dq : List Flit) (hdq : s.dataQ = f :: dq) :
    input[s.collected.length + s.outQ.length]? = some f ∧
      s.sumQ.head? = some (flitSum f) := by
  obtain ⟨bs, ds, is, ps, hsplit, hp, hi, hd, hq, hsum, hout⟩ := hs
  have hds' : ds = f :: dq := by rw [← hd, hdq]
  have hlen : s.collected.length + s.outQ.length = bs.length := by
    have h := congrArg List.length hout
    rw [List.length_append, prefixSumSimpleRun_length] at h
    exact h
  constructor
  · rw [hlen, hsplit, hds', List.append_assoc, List.append_assoc,
      List.getElem?_append_right (le_refl bs.length)]
    simp
  · rw [hq, hds']
    rfl

/-- The flattened output carries exactly as many elements as the flattened
input. -/
theorem flatten_prefixSumSimpleRun_length (fs : List Flit) (s : Nat) :
    (prefixSumSimpleRun s fs).flatten.length = fs.flatten.length := by
  rw [flatten_prefixSumSimpleRun, scanAdd_length]

/-! ## The last lane of an output flit -/

theorem scanAdd_getLast (f : List Nat) :
    ∀ s e, (scanAdd s (e :: f)).getLast? = some ((e :: f).foldl add64 s) := by
  induction f with
  | nil => intro s e; simp [scanAdd]
  | cons e' f ih =>
    intro s e
    show (add64 s e :: add64 (add64 s e) e' ::
      scanAdd (add64 (add64 s e) e') f).getLast? = _
    rw [List.getLast?_cons_cons]
    exact ih (add64 s e) e'

/-- The last flit of a nonempty single-stage run ends with the kernel's
architectural state after the run. -/
theorem run_getLast (bs : List Flit) :
    ∀ s, bs ≠ [] → (∀ f ∈ bs, f ≠ []) →
      ∃ o, (prefixSumSimpleRun s bs).getLast? = some o ∧
        o.getLast? = some (simpleState s bs) := by
  induction bs with
  | nil => intro s h; exact absurd rfl h
  | cons f bs ih =>
    intro s _ hne
    cases bs with
    | nil =>
      refine ⟨(flitLoop s f).1, by simp [prefixSumSimpleRun, prefixSumSimple_tick], ?_⟩
      obtain ⟨e, f', hf⟩ : ∃ e f', f = e :: f' := by
        rcases hf : f with _ | ⟨e, f'⟩
        · exact absurd rfl (hne f (by simp) ∘ (hf ▸ ·))
        · exact ⟨e, f', rfl⟩
      rw [flitLoop_fst, hf, scanAdd_getLast]
      simp [simpleState, flitLoop_snd_foldl, hf]
    | cons g bs' =>
      have hne' : prefixSumSimpleRun (flitLoop s f).2 (g :: bs') ≠ [] := by
        intro hcon
        have := congrArg List.length hcon
        rw [prefixSumSimpleRun_length] at this
        simp at this
      obtain ⟨o, ho, hlast⟩ :=
        ih (flitLoop s f).2 (by simp) (fun x hx => hne x (by simp [hx]))
      refine ⟨o, ?_, ?_⟩
      · show ([(flitLoop s f).1] ++
          prefixSumSimpleRun (flitLoop s f).2 (g :: bs')).getLast? = some o
        rw [List.getLast?_append, ho]
        rfl
      · rw [hlast]
        show _ = some (simpleState s (f :: g :: bs'))
        simp [simpleState, List.foldl_cons]

/-- Stage B's architectural state `sumSoFar` after its first `k` ticks:
per tick it executes `sumSoFar += partialSum` (main.cpp:159) on the
partial sums it reads, which channel ordering pairs with the first `k`
input flits. -/
def sumSoFarAfter (fs : List Flit) (k : Nat) : Nat :=
  ((fs.take k).map flitSum).foldl add64 0

theorem foldl_add64_flitSum (bs : List Flit) :
    ∀ t : Nat, (bs.map flitSum).foldl add64 (t % M) = (t + bs.flatten.sum) % M := by
  induction bs with
  | nil => intro t; simp
  | cons f bs ih =>
    intro t
    rw [List.map_cons, List.foldl_cons,
      show add64 (t % M) (flitSum f) = (t + f.sum) % M by
        rw [flitSum_eq, add64_mod_left, add64, Nat.add_mod_mod],
      ih (t + f.sum)]
    simp [Nat.add_assoc]

theorem sumSoFarAfter_eq (fs : List Flit) (k : Nat) :
    sumSoFarAfter fs k = (fs.take k).flatten.sum % M := by
  have h := foldl_add64_flitSum (fs.take k) 0
  simpa [sumSoFarAfter] using h

/-! ## The correctness harness and construction-time validation -/

/-- The verification loop of `main` (main.cpp:307-318) over the flattened
element streams: it recomputes the reference running sum and, at the first
index where the output stream disagrees, prints the fixed string
`"Sum incorrect."` and makes `main` return `1`; it reports nothing
otherwise. -/
def verifyRun : Nat → List Nat → List Nat → Option (String × Nat)
  | _, [], _ => none
  | _, _, [] => none
  | s, i :: is, o :: os =>
    if add64 s i ≠ o then some ("Sum incorrect.", 1)
    else verifyRun (add64 s i) is os

/-- The harness comparison starting from `Element prefixSum = 0`
(main.cpp:308). -/
def mainVerify (idata odata : List Nat) : Option (String × Nat) :=
  verifyRun 0 idata odata

/-- Whatever the failure, the harness emits one fixed report. -/
theorem verifyRun_report (idata : List Nat) :
    ∀ (s : Nat) (odata : List Nat) (r : String × Nat),
      verifyRun s idata odata = some r → r = ("Sum incorrect.", 1) := by
  induction idata with
  | nil => intro s odata r h; simp [verifyRun] at h
  | cons i is ih =>
    intro s odata r h
    cases odata with
    | nil => simp [verifyRun] at h
    | cons o os =>
      rw [verifyRun] at h
      split at h
      · cases h; rfl
      · exact ih (add64 s i) os r h

/-- Error taxonomy of the design (spec §7): only the configuration case is
needed here. -/
inductive PipelineError where
  /-- Invalid construction-time configuration. -/
  | ConfigurationError
deriving DecidableEq

/-- Modelled from the spec: pipe capacities in `src/` are the compile-time
constant `DEFAULT_PIPE_DEPTH = 4` (main.cpp:53-64) and no construction-time
depth validation exists under `src/`; the spec's error taxonomy (§7(a))
requires pipeline construction to reject a non-positive channel depth as a
`ConfigurationError`, fatally, with no partial pipeline started.
Construction therefore either rejects the requested depth or returns the
assembled pipeline in its initial state. -/
def buildPipeline (depth : Int) (input : List Flit) :
    Except PipelineError PipeState :=
  if depth ≤ 0 then Except.error PipelineError.ConfigurationError
  else Except.ok (init input)

/-! ## The claims -/

/-- C1: for every finite input sequence of flits, the output flit sequence
produced by the two-stage pipeline (`prefixSumA` feeding `prefixSumB`
through the sum and data channels) is identical, element for element, to
the output sequence produced by the single-stage kernel `prefixSumSimple`
on the same input. -/
theorem claim_C1_two_stage_equivalence (fs : List Flit) :
    twoStage fs = prefixSumSimple fs := by
  have h := prefixSumBRun_map_eq fs 0
  simpa [twoStage, prefixSumSimple] using h

/-- C2: for every finite input element sequence (of length a multiple of
the lane count `W`, as the harness requires), the `i`-th element of the
output stream of the prefix-sum kernel — which per tick reads one flit of
`W` elements and scans it in index order — is the sum of input elements
`0` through `i` modulo `2 ^ 64`. -/
theorem claim_C2_output_elementwise (W : Nat) (l : List Nat) (i : Nat)
    (hW : 0 < W) (hdvd : W ∣ l.length) (hi : i < l.length) :
    ((prefixSumSimple (chunks W l)).flatten)[i]? =
      some ((l.take (i + 1)).sum % M) := by
  show ((prefixSumSimpleRun 0 (chunks W l)).flatten)[i]? = _
  rw [flatten_prefixSumSimpleRun, chunks_flatten]
  have h := scanAdd_get l 0 i hi
  simpa using h

/-- Witness for C2 at `W = 4`, input `[1..8]`, `i = 5`. -/
theorem claim_C2_output_elementwise_witness :
    ((prefixSumSimple (chunks 4 [1, 2, 3, 4, 5, 6, 7, 8])).flatten)[5]? =
      some ((([1, 2, 3, 4, 5, 6, 7, 8] : List Nat).take 6).sum % M) :=
  claim_C2_output_elementwise 4 [1, 2, 3, 4, 5, 6, 7, 8] 5 (by decide)
    (by decide) (by decide)

/-- C3: on every tick of Stage B, along any run of the pipeline: the flit
at the head of the data channel and the partial sum at the head of the
scalar channel belong to the same original input tick, numbered by Stage
B's firing count (flits collected plus in flight in `OutPipe`); firing
Stage B writes the output flit computed by the single-stage lane loop
seeded with `sumSoFar`, and then updates `sumSoFar` by adding the partial
sum. -/
theorem claim_C3_stageB_tick (d : Nat) (input : List Flit)
    (σ : List PipeUnit) (s : PipeState)
    (hrun : run d (init input) σ = some s)
    (f : Flit) (dq : List Flit) (hdq : s.dataQ = f :: dq) :
    input[s.collected.length + s.outQ.length]? = some f ∧
    s.sumQ.head? = some (flitSum f) ∧
    ∀ s', step d .stageB s = some s' →
      s'.outQ = s.outQ ++ [(flitLoop s.sumSoFar f).1] ∧
      s'.sumSoFar = add64 s.sumSoFar (flitSum f) := by
  have hinv := run_inv d input σ (init input) s (init_inv input) hrun
  obtain ⟨h1, h2⟩ := inv_pairing input s hinv f dq hdq
  refine ⟨h1, h2, ?_⟩
  intro s' hstep
  rcases hsq : s.sumQ with _ | ⟨p, sq⟩
  · simp [step, hdq, hsq] at hstep
  · have hp : p = flitSum f := by
      rw [hsq] at h2
      simpa using h2
    simp [step, hdq, hsq] at hstep
    obtain ⟨hlt, hs'⟩ := hstep
    constructor <;> simp [← hs', prefixSumB_tick, hp]

/-- Witness for C3 after the run `[source, stageA]` on input `[[2], [3]]`
with depth `1`. -/
theorem claim_C3_stageB_tick_witness :
    ([[2], [3]] : List Flit)[([] : List Flit).length + ([] : List Flit).length]? =
      some [2] ∧
    ([2] : List Nat).head? = some (flitSum [2]) := by
  have h := claim_C3_stageB_tick 1 [[2], [3]] [PipeUnit.source, PipeUnit.stageA]
    ⟨[[3]], [], [[2]], [2], [], 0, []⟩ (by decide) [2] [] rfl
  exact ⟨h.1, h.2.1⟩

/-- C4: a tick of Stage A writes to the scalar channel the sum of the
flit's `W` lanes modulo `2 ^ 64`, forwards the flit unchanged to the data
channel, and leaves every other component of the global state — in
particular all architectural state — untouched; the values written depend
only on the flit consumed on that tick. -/
theorem claim_C4_stageA_tick (d : Nat) (s : PipeState) (f : Flit)
    (rest : List Flit) (hin : s.inQ = f :: rest) (s' : PipeState)
    (h : step d .stageA s = some s') :
    prefixSumA_tick f = (f.sum % M, f) ∧
    s' = { s with inQ := rest,
                  sumQ := s.sumQ ++ [f.sum % M],
                  dataQ := s.dataQ ++ [f] } := by
  refine ⟨by rw [prefixSumA_tick, flitSum_eq], ?_⟩
  simp [step, hin] at h
  obtain ⟨hlt, hs'⟩ := h
  rw [← hs']
  simp [prefixSumA_tick, flitSum_eq]

/-- Witness for C4 on the flit `[7]` with depth `1`. -/
theorem claim_C4_stageA_tick_witness :
    prefixSumA_tick [7] = (([7] : Flit).sum % M, [7]) ∧
    (⟨[], [], [[7]], [7], [], 0, []⟩ : PipeState) =
      { (⟨[], [[7]], [], [], [], 0, []⟩ : PipeState) with
          inQ := ([] : List Flit),
          sumQ := [] ++ [([7] : Flit).sum % M],
          dataQ := [] ++ [[7]] } :=
  claim_C4_stageA_tick 1 ⟨[], [[7]], [], [], [], 0, []⟩ [7] [] rfl
    ⟨[], [], [[7]], [7], [], 0, []⟩ (by decide)

/-- C5: after Stage B has processed its first `k` flit/partialSum pairs,
its architectural state `sumSoFar` equals the sum modulo `2 ^ 64` of all
elements of the first `k` input flits, which also equals
`prefixSumSimple`'s `prefixSum` state after the same `k` flits and, when
`k ≥ 1`, the last element of the `k`-th output flit. -/
theorem claim_C5_state_invariant (fs : List Flit) (k : Nat)
    (hk : k ≤ fs.length) (hne : ∀ f ∈ fs, f ≠ []) :
    sumSoFarAfter fs k = (fs.take k).flatten.sum % M ∧
    sumSoFarAfter fs k = simpleState 0 (fs.take k) ∧
    (0 < k → ∃ o, (prefixSumSimple fs)[k - 1]? = some o ∧
      o.getLast? = some (sumSoFarAfter fs k)) := by
  have h1 : sumSoFarAfter fs k = (fs.take k).flatten.sum % M := sumSoFarAfter_eq fs k
  have h2 : simpleState 0 (fs.take k) = (fs.take k).flatten.sum % M :=
    simpleState_zero _
  refine ⟨h1, by rw [h1, h2], ?_⟩
  intro hk0
  have htk : fs.take k ≠ [] := by
    intro hcon
    have hlen := congrArg List.length hcon
    simp only [List.length_take, List.length_nil] at hlen
    omega
  obtain ⟨o, ho, hlast⟩ :=
    run_getLast (fs.take k) 0 htk (fun f hf => hne f (List.mem_of_mem_take hf))
  have hlenr : (prefixSumSimpleRun 0 (fs.take k)).length = k := by
    rw [prefixSumSimpleRun_length, List.length_take]
    omega
  refine ⟨o, ?_, by rw [hlast, h1, h2]⟩
  show (prefixSumSimpleRun 0 fs)[k - 1]? = some o
  have hsplit : prefixSumSimpleRun 0 (fs.take k) ++
      prefixSumSimpleRun (simpleState 0 (fs.take k)) (fs.drop k) =
      prefixSumSimpleRun 0 fs := by
    rw [← prefixSumSimpleRun_append, List.take_append_drop]
  rw [← hsplit, List.getElem?_append_left (by rw [hlenr]; omega)]
  rw [List.getLast?_eq_getElem?, hlenr] at ho
  exact ho

/-- Witness for C5 on `[[1, 2], [3, 4]]` with `k = 2`. -/
theorem claim_C5_state_invariant_witness :
    sumSoFarAfter [[1, 2], [3, 4]] 2 =
      (([[1, 2], [3, 4]] : List Flit).take 2).flatten.sum % M :=
  (claim_C5_state_invariant [[1, 2], [3, 4]] 2 (by decide) (by decide)).1

/-- C6: the pipeline's output is a deterministic function of its input
sequence alone: any two complete executions (runs ending in a state where
every unit is blocked) on the same input produce identical collected
output, however the scheduler interleaved the unit ticks — and that output
is the single-stage kernel's. -/
theorem claim_C6_determinism (d : Nat) (input : List Flit)
    (σ₁ σ₂ : List PipeUnit) (s₁ s₂ : PipeState) (hd1 : 1 ≤ d)
    (h₁ : run d (init input) σ₁ = some s₁) (ht₁ : Terminal d s₁)
    (h₂ : run d (init input) σ₂ = some s₂) (ht₂ : Terminal d s₂) :
    s₁.collected = s₂.collected ∧ s₁.collected = prefixSumSimple input := by
  have k₁ := (terminal_drained d input s₁ hd1
    (run_inv d input σ₁ (init input) s₁ (init_inv input) h₁) ht₁).2.2.2.2.2
  have k₂ := (terminal_drained d input s₂ hd1
    (run_inv d input σ₂ (init input) s₂ (init_inv input) h₂) ht₂).2.2.2.2.2
  exact ⟨by rw [k₁, k₂], k₁⟩

/-- Witness for C6: two genuinely different interleavings of the same
two-flit input at depth `2`, one fully serialized per flit, one running
each unit twice in a row. -/
theorem claim_C6_determinism_witness :
    (⟨[], [], [], [], [], 3, [[1], [3]]⟩ : PipeState).collected =
      (⟨[], [], [], [], [], 3, [[1], [3]]⟩ : PipeState).collected ∧
    (⟨[], [], [], [], [], 3, [[1], [3]]⟩ : PipeState).collected =
      prefixSumSimple [[1], [2]] :=
  claim_C6_determinism 2 [[1], [2]]
    [.source, .stageA, .stageB, .sink, .source, .stageA, .stageB, .sink]
    [.source, .source, .stageA, .stageA, .stageB, .stageB, .sink, .sink]
    ⟨[], [], [], [], [], 3, [[1], [3]]⟩ ⟨[], [], [], [], [], 3, [[1], [3]]⟩
    (by decide) (by decide) (by decide) (by decide) (by decide)

/-- C7: with any positive pipe depth, a bounded-length run always
completes: every schedule fires at most `4 * N/W` ticks in total, a
completing schedule of that length exists, any complete (all-blocked)
state has the sink holding exactly the `N` output elements with every
queue drained — so no unit is left blocked on a channel operation with
work outstanding. -/
theorem claim_C7_completion (d : Nat) (input : List Flit) (hd1 : 1 ≤ d) :
    (∀ σ s, run d (init input) σ = some s →
      σ.length ≤ 4 * input.length ∧
      (Terminal d s →
        s.collected = prefixSumSimple input ∧
        s.collected.flatten.length = input.flatten.length ∧
        s.pending = [] ∧ s.inQ = [] ∧ s.dataQ = [] ∧ s.sumQ = [] ∧
        s.outQ = [])) ∧
    (∃ σ s, run d (init input) σ = some s ∧ σ.length ≤ 4 * input.length ∧
      Terminal d s) := by
  have hwi : weight (init input) = 4 * input.length := by simp [weight, init]
  constructor
  · intro σ s hrun
    have hw := run_weight d σ (init input) s hrun
    constructor
    · omega
    · intro ht
      have hinv := run_inv d input σ (init input) s (init_inv input) hrun
      obtain ⟨p1, p2, p3, p4, p5, p6⟩ := terminal_drained d input s hd1 hinv ht
      refine ⟨p6, ?_, p1, p2, p3, p4, p5⟩
      rw [p6]
      exact flatten_prefixSumSimpleRun_length input 0
  · obtain ⟨σ, s, hrun, hlen, hterm⟩ :=
      exists_terminal_run d (4 * input.length) (init input) (by omega)
    exact ⟨σ, s, hrun, hlen, hterm⟩

/-- Witness for C7: the serialized schedule on a one-flit input at
depth 1 stays within the tick bound. -/
theorem claim_C7_completion_witness :
    ([PipeUnit.source, PipeUnit.stageA, PipeUnit.stageB, PipeUnit.sink] :
      List PipeUnit).length ≤ 4 * ([[5]] : List Flit).length :=
  ((claim_C7_completion 1 [[5]] (by decide)).1
    [.source, .stageA, .stageB, .sink]
    ⟨[], [], [], [], [], 5, [[5]]⟩ (by decide)).1

/-- C8: with `W = 4` and `N = 8`, the prefix-sum pipeline maps the input
element sequence `[1, 2, 3, 4, 5, 6, 7, 8]` to the output element
sequence `[1, 3, 6, 10, 15, 21, 28, 36]`: true of the single-stage
kernel, of the two-stage composition, and of a full concurrent run at the
source's pipe depth `4`. -/
theorem claim_C8_scenario1 :
    (prefixSumSimple (chunks 4 [1, 2, 3, 4, 5, 6, 7, 8])).flatten =
      [1, 3, 6, 10, 15, 21, 28, 36] ∧
    (twoStage (chunks 4 [1, 2, 3, 4, 5, 6, 7, 8])).flatten =
      [1, 3, 6, 10, 15, 21, 28, 36] ∧
    run 4 (init (chunks 4 [1, 2, 3, 4, 5, 6, 7, 8]))
        [.source, .stageA, .stageB, .sink, .source, .stageA, .stageB, .sink] =
      some ⟨[], [], [], [], [], 36, [[1, 3, 6, 10], [15, 21, 28, 36]]⟩ ∧
    Terminal 4 ⟨[], [], [], [], [], 36, [[1, 3, 6, 10], [15, 21, 28, 36]]⟩ ∧
    ([[1, 3, 6, 10], [15, 21, 28, 36]] : List Flit).flatten =
      [1, 3, 6, 10, 15, 21, 28, 36] :=
  ⟨by decide, by decide, by decide, by decide, by decide⟩

/-- C9, counterexample: the harness's failure report is the constant pair
(message `"Sum incorrect."`, exit status 1); two runs failing at different
indices (0 versus 1) with different expected/actual values (1 versus 2
expected, 2 versus 3 actual) produce the very same report, so the report
carries neither the index nor the values. -/
theorem claim_C9_counterexample :
    mainVerify [1] [2] = some ("Sum incorrect.", 1) ∧
    mainVerify [1, 1] [1, 3] = some ("Sum incorrect.", 1) ∧
    mainVerify [1] [2] = mainVerify [1, 1] [1, 3] :=
  ⟨rfl, rfl, rfl⟩

/-- C9, amended: when the harness's comparison against the reference
prefix-sum fails at some index, the failure is reported — but only as the
fixed message `"Sum incorrect."` with exit status 1, without the failing
index and without the expected or actual values. -/
theorem claim_C9_report_fixed (idata odata : List Nat) (r : String × Nat)
    (h : mainVerify idata odata = some r) : r = ("Sum incorrect.", 1) :=
  verifyRun_report idata 0 odata r h

/-- Witness for the amended C9 on the mismatching pair `[1]`, `[2]`. -/
theorem claim_C9_report_fixed_witness :
    (("Sum incorrect.", 1) : String × Nat) = ("Sum incorrect.", 1) :=
  claim_C9_report_fixed [1] [2] ("Sum incorrect.", 1) rfl

/-- C10: constructing a pipeline with a non-positive channel depth is
rejected at construction as a `ConfigurationError`, and no pipeline —
partial or otherwise — is produced. -/
theorem claim_C10_depth_rejected (depth : Int) (input : List Flit)
    (h : depth ≤ 0) :
    buildPipeline depth input = Except.error PipelineError.ConfigurationError ∧
    ∀ s : PipeState, buildPipeline depth input ≠ Except.ok s := by
  constructor
  · simp [buildPipeline, h]
  · intro s hcon
    simp [buildPipeline, h] at hcon

/-- Witness for C10 at depth `0`. -/
theorem claim_C10_depth_rejected_witness :
    buildPipeline 0 [] = Except.error PipelineError.ConfigurationError :=
  (claim_C10_depth_rejected 0 [] (by decide)).1

end MiniStreamPub
